import Mathlib

/-!
Verification of the stage-dependency execution engine of the AI code-review
application (`src/app.py`).

The application drives a fixed five-stage analysis pipeline (quality,
security, performance, documentation, synthesis) over one source artifact,
invoking an external text generator once per stage, showing progress, and
appending a review record to an in-session history on success.

The Streamlit script's run block (`src/app.py` lines 320-625) is embedded
directly.  The stage-level execution inside `Crew.kickoff`, the pipeline
validation/ordering, and the per-stage context aggregation live in the
`crewai` library, whose code is not part of this repository; those parts are
modelled from the specification (each such definition is marked
`Modelled from the spec:`).
-/

namespace CodeReview

/-- Per-stage result, spec §3: `Pending → Running → (Succeeded | Failed)`;
output text present only if Succeeded, error only if Failed. -/
inductive StageRes
  | pending
  | running
  | succeeded (output : String)
  | failed (error : String)
deriving DecidableEq

/-- Overall run status, spec §4.3. -/
inductive RunStatus
  | Completed
  | Failed
deriving DecidableEq

/-- Observable actions of one run of the review block
(`src/app.py` lines 320-625): progress-bar updates (`progress_bar.progress`),
status messages (`status_text.text`), temporary-file creation
(`tempfile.NamedTemporaryFile`, line 332) and deletion (`os.unlink`,
line 606), generator invocations (inside `code_review_crew.kickoff`), and the
error banner of the `except` branch (line 621). -/
inductive Event
  | progress (percent : Nat)
  | status (msg : String)
  | tempCreate
  | genCall (stage : String)
  | tempUnlink
  | errorShown (msg : String)
deriving DecidableEq

/-- Outcome of the staged execution: generator calls made (in call order),
per-stage results, and the final (last) task output. -/
structure ExecOut where
  calls : List String
  results : List (String × StageRes)
  final : Except String String

/-- Modelled from the spec: the stage-level loop inside `Crew.kickoff`
(`crewai` library, `Process.sequential`), spec §4.3: run the ordered stages
one by one; on success record the output and continue; on `GenerationError`
mark the stage Failed, leave the remaining stages untouched and abort; the
final output is the last stage's output.  The generator is abstracted as a
function from stage id to its outcome. -/
def kickoff (g : String → Except String String) : List String → ExecOut
  | [] => ⟨[], [], Except.ok ""⟩
  | s :: rest =>
    match g s with
    | Except.ok out =>
      let o := kickoff g rest
      ⟨s :: o.calls, (s, StageRes.succeeded out) :: o.results,
        match rest with
        | [] => Except.ok out
        | _ :: _ => o.final⟩
    | Except.error e =>
      ⟨[s], (s, StageRes.failed e) :: rest.map (fun r => (r, StageRes.pending)),
        Except.error e⟩

/-- Review record stored on success (`src/app.py` lines 590-597): content is
`str(result)` of the kickoff output, plus file name, timestamp, original
code, model identifier and temperature. -/
structure ReviewRecord where
  content : String
  file_name : String
  timestamp : String
  code : String
  model : String
  temperature : String
deriving DecidableEq

/-- Session state of the application (`st.session_state`):
`api_key`, `review_result`, `review_history` (`src/app.py` lines 70-78). -/
structure AppState where
  api_key : Option String
  review_result : Option ReviewRecord
  review_history : List ReviewRecord
deriving DecidableEq

/-- The five stage ids of the declared pipeline, in declaration order
(`analyze_task`, `security_task`, `performance_task`, `documentation_task`,
`synthesis_task` in `src/app.py` lines 436-538; spec names quality,
security, performance, documentation, synthesis). -/
def appStageIds : List String :=
  ["quality", "security", "performance", "documentation", "synthesis"]

/-- Events emitted by the run block before `kickoff` is invoked
(`src/app.py` lines 332-579, in program order): the temp file is created,
then the progress bar is initialized at 0 and driven through
10, 20, 30, 40, 55, 70, 85, 95 with interleaved status messages — all before
the single `code_review_crew.kickoff` call at line 582. -/
def preKickoffEvents : List Event :=
  [Event.tempCreate,
   Event.progress 0,
   Event.status "🤖 Initializing AI agents...",
   Event.progress 10,
   Event.progress 20,
   Event.status "📋 Creating analysis tasks...",
   Event.progress 30,
   Event.status "🔍 Agent 1/5: Analyzing code quality...",
   Event.progress 40,
   Event.status "🔒 Agent 2/5: Auditing security...",
   Event.progress 55,
   Event.status "⚡ Agent 3/5: Analyzing performance...",
   Event.progress 70,
   Event.status "📝 Agent 4/5: Reviewing documentation...",
   Event.progress 85,
   Event.status "📊 Agent 5/5: Synthesizing results...",
   Event.progress 95]

/-- Result of one run: the session state after the run, the emitted events,
the per-stage results, and the overall run status. -/
structure RunOut where
  state : AppState
  events : List Event
  stageResults : List (String × StageRes)
  status : RunStatus

/-- The review run block (`src/app.py` lines 320-625).  On kickoff success
(`try` body completes): progress reaches 100, a `ReviewRecord` is built,
stored in `review_result` and appended to `review_history`, and the temp
file is unlinked (line 606).  On any exception (the `except` branch at
line 620): an error banner is shown, the session state is left unchanged,
and — as in the source — the temp file is not unlinked. -/
def runReview (st : AppState) (file_name code_content model_option temperature timestamp : String)
    (g : String → Except String String) : RunOut :=
  let o := kickoff g appStageIds
  match o.final with
  | Except.ok finalText =>
    let record : ReviewRecord :=
      ⟨finalText, file_name, timestamp, code_content, model_option, temperature⟩
    { state :=
        { api_key := st.api_key,
          review_result := some record,
          review_history := st.review_history ++ [record] },
      events := preKickoffEvents ++ o.calls.map Event.genCall ++
        [Event.progress 100, Event.status "✅ Review complete!", Event.tempUnlink],
      stageResults := o.results,
      status := RunStatus.Completed }
  | Except.error e =>
    { state := st,
      events := preKickoffEvents ++ o.calls.map Event.genCall ++
        [Event.errorShown ("❌ Error during review: " ++ e)],
      stageResults := o.results,
      status := RunStatus.Failed }

/-- The percent values sent to the progress bar, in emission order. -/
def percentsOf (evs : List Event) : List Nat :=
  evs.filterMap (fun e =>
    match e with
    | Event.progress n => some n
    | _ => none)

/-- Whether an event is a generator invocation. -/
def isGenCall : Event → Bool
  | Event.genCall _ => true
  | _ => false

/-- The `count()` operation of the history store:
`len(st.session_state.review_history)` (`src/app.py` lines 169 and 881). -/
def countReviews (st : AppState) : Nat :=
  st.review_history.length

/-- The per-stage status messages shown while the pipeline runs
(`status_text.text`, `src/app.py` lines 543-578), one per stage,
in stage order. -/
def stageStatusMsgs : List String :=
  ["🔍 Agent 1/5: Analyzing code quality...",
   "🔒 Agent 2/5: Auditing security...",
   "⚡ Agent 3/5: Analyzing performance...",
   "📝 Agent 4/5: Reviewing documentation...",
   "📊 Agent 5/5: Synthesizing results..."]

/-- Whether an event is one of the per-stage status messages. -/
def isStageStatus : Event → Bool
  | Event.status m => stageStatusMsgs.contains m
  | _ => false

/-- Persona metadata attached to a stage, spec §3: role, goal, backstory
(the `Agent` keyword arguments in `src/app.py` lines 349-429). -/
structure Persona where
  role : String
  goal : String
  backstory : String
deriving DecidableEq

/-- Stage definition, spec §3: id, persona, prompt template (with
`%ARTIFACT%` standing for the interpolated temp-file path of the source's
f-strings), expected-output description, and the ordered list of upstream
dependency ids (the `context=[...]` arguments of the `Task`s in
`src/app.py` lines 436-538). -/
structure StageDef where
  id : String
  persona : Persona
  prompt_template : String
  expected_output : String
  dependencies : List String
deriving DecidableEq

/-- Dependency list of the first stage with the given id (empty for an
unknown id). -/
def depsOf (p : List StageDef) (a : String) : List String :=
  match p.find? (fun s => s.id == a) with
  | some s => s.dependencies
  | none => []

/-- One dependency edge: stage `a` directly depends on stage `b`. -/
def Dep1 (p : List StageDef) (a b : String) : Prop :=
  b ∈ depsOf p a

/-- All ids that occur in some dependency list of the pipeline. -/
def allDeps (p : List StageDef) : Finset String :=
  ((p.map (fun s => s.dependencies)).flatten).toFinset

/-- Direct dependencies of a stage id, as a finite set. -/
def depF (p : List StageDef) (a : String) : Finset String :=
  (depsOf p a).toFinset

/-- One step of the reachable-set computation: add the direct dependencies
of every member. -/
def expandF (p : List StageDef) (S : Finset String) : Finset String :=
  S ∪ S.biUnion (depF p)

/-- Ids reachable from `a` along dependency edges within the given number
of expansion rounds. -/
def reachSet (p : List StageDef) (a : String) : Nat → Finset String
  | 0 => depF p a
  | k + 1 => expandF p (reachSet p a k)

/-- Enough expansion rounds for `reachSet` to reach its fixpoint. -/
def cycleFuel (p : List StageDef) : Nat :=
  (allDeps p).card + 1

/-- Whether some stage's dependency set transitively includes the stage
itself. -/
def hasCycleB (p : List StageDef) : Bool :=
  p.any (fun s => decide (s.id ∈ reachSet p s.id (cycleFuel p)))

/-- Whether some declared dependency id is not the id of a defined stage. -/
def hasUnknownDepB (p : List StageDef) : Bool :=
  p.any (fun s => s.dependencies.any (fun d => !(p.any (fun t => t.id == d))))

/-- Pipeline-assembly errors, spec §7. -/
inductive PipelineError
  | CycleError
  | UnknownDependencyError
deriving DecidableEq

/-- Modelled from the spec: `validate()` of the Dependency Graph /
Sequencer (spec §4.1); the corresponding checks live inside the `crewai`
`Crew` constructor, not in this repository.  Fails with `CycleError` if any
stage's dependency set transitively includes itself, and with
`UnknownDependencyError` if a dependency id is not a defined stage. -/
def validate (p : List StageDef) : Except PipelineError Unit :=
  if hasCycleB p then Except.error PipelineError.CycleError
  else if hasUnknownDepB p then Except.error PipelineError.UnknownDependencyError
  else Except.ok ()

/-- The earliest-declared stage that is not yet emitted and whose declared
dependencies have all been emitted. -/
def pickNext (p : List StageDef) (done : List String) : Option StageDef :=
  p.find? (fun s => !(done.contains s.id) && s.dependencies.all (fun d => done.contains d))

/-- Modelled from the spec: the stage-selection loop of `order()`
(spec §4.1) — repeatedly emit the earliest-declared ready stage. -/
def orderStagesAux (p : List StageDef) : Nat → List String → List StageDef
  | 0, _ => []
  | fuel + 1, done =>
    match pickNext p done with
    | some s => s :: orderStagesAux p fuel (done ++ [s.id])
    | none => []

/-- The stages in execution order. -/
def orderStages (p : List StageDef) : List StageDef :=
  orderStagesAux p p.length []

/-- Modelled from the spec: `order()` of the Dependency Graph / Sequencer
(spec §4.1) — stage ids in an execution order in which every dependency
precedes its dependents, ties broken by declaration order.  In the source
the order is realized by `Process.sequential` over the declared task list
inside the `crewai` library. -/
def order (p : List StageDef) : List String :=
  (orderStages p).map StageDef.id

/-- Modelled from the spec: the Execution Engine entry point (spec §4.3) —
resolve and validate the pipeline, then drive the ordered stages against
the generator.  Assembly errors are raised before any generator call. -/
def engineRun (p : List StageDef) (g : String → Except String String) :
    Except PipelineError ExecOut :=
  match validate p with
  | Except.error e => Except.error e
  | Except.ok _ => Except.ok (kickoff g (order p))

/-- Stage ids of the pipeline not yet emitted by the ordering loop. -/
def remainingIds (p : List StageDef) (done : List String) : Finset String :=
  (p.map StageDef.id).toFinset.filter (fun i => ¬ i ∈ done)

/-- Relative well-ordering of a stage list: each stage's declared
dependencies all occur among the previously emitted ids (starting from
`done`). -/
def GoodFrom (done : List String) : List StageDef → Prop
  | [] => True
  | s :: rest => (∀ d ∈ s.dependencies, d ∈ done) ∧ GoodFrom (done ++ [s.id]) rest

/-- Stage 1 of the declared pipeline: code-quality analysis
(`code_analyzer` / `analyze_task`, `src/app.py` lines 349-365 and 436-453). -/
def qualityStage : StageDef :=
  ⟨"quality",
   ⟨"Senior Code Quality Analyst",
    "Analyze code for bugs, code smells, and potential issues in %ARTIFACT%",
    "You are a veteran software engineer with 20 years of experience in code reviews. You have a keen eye for spotting bugs, performance issues, and violations of best practices."⟩,
   "Analyze %ARTIFACT% for:\n1. Code quality issues (complexity, readability, maintainability)\n2. Potential bugs and logic errors\n3. Code smells (duplicated code, long functions, etc.)\n4. Adherence to coding standards and best practices\n5. Error handling and edge cases\n\nAlways read the file contents with the FileReadTool before analyzing.\nProvide specific line numbers and examples for each issue found.",
   "Detailed code quality analysis with specific issues and line numbers.",
   []⟩

/-- Stage 2: security audit (`security_auditor` / `security_task`,
`src/app.py` lines 367-382 and 455-473; depends on the quality stage via
`context=[analyze_task]`). -/
def securityStage : StageDef :=
  ⟨"security",
   ⟨"Cybersecurity Expert",
    "Identify security vulnerabilities and risks in %ARTIFACT%",
    "You are a certified security researcher specializing in OWASP Top 10 vulnerabilities. You have prevented countless security breaches."⟩,
   "Perform security audit of %ARTIFACT%:\n1. Check for OWASP Top 10 vulnerabilities\n2. Identify authentication/authorization issues\n3. Look for injection vulnerabilities (SQL, XSS, Command)\n4. Review input validation and sanitization\n5. Check for hardcoded secrets or sensitive data\n\nRate each vulnerability by severity (Critical/High/Medium/Low) and reference relevant lines from the file.",
   "Security audit report with vulnerability severity ratings.",
   ["quality"]⟩

/-- Stage 3: performance analysis (`performance_expert` /
`performance_task`, `src/app.py` lines 384-398 and 475-492; depends on the
quality stage). -/
def performanceStage : StageDef :=
  ⟨"performance",
   ⟨"Performance Optimization Specialist",
    "Analyze code performance and suggest optimizations for %ARTIFACT%",
    "You are a performance engineer who has optimized applications serving millions of users."⟩,
   "Analyze performance of %ARTIFACT%:\n1. Identify algorithmic inefficiencies (O(n²), nested loops)\n2. Check database query optimization\n3. Look for memory leaks or excessive memory usage\n4. Review caching opportunities\n\nSuggest specific optimizations with expected impact and point to the relevant code lines.",
   "Performance analysis with optimization recommendations.",
   ["quality"]⟩

/-- Stage 4: documentation review (`documentation_writer` /
`documentation_task`, `src/app.py` lines 400-414 and 494-509; depends on
the quality stage). -/
def documentationStage : StageDef :=
  ⟨"documentation",
   ⟨"Technical Documentation Expert",
    "Review and improve code documentation for %ARTIFACT%",
    "You are a technical writer who believes great code tells a story."⟩,
   "Review documentation quality of %ARTIFACT%:\n1. Check for missing docstrings/comments\n2. Assess clarity of existing documentation\n3. Identify undocumented complex logic\n4. Review function/method parameter descriptions\n\nProvide examples of improved documentation for key functions.",
   "Documentation review with improvement suggestions.",
   ["quality"]⟩

/-- Stage 5: synthesis (`review_synthesizer` / `synthesis_task`,
`src/app.py` lines 416-429 and 511-538; depends on all four earlier
stages via `context=[analyze_task, security_task, performance_task,
documentation_task]`). -/
def synthesisStage : StageDef :=
  ⟨"synthesis",
   ⟨"Lead Code Reviewer",
    "Synthesize all reviews and create actionable recommendations",
    "You are a tech lead who has mentored dozens of developers."⟩,
   "Create comprehensive code review report:\n1. Summarize all findings from other agents\n2. Prioritize issues by severity and impact\n3. Provide clear, actionable recommendations\n4. Estimate effort required for each fix\n5. Calculate overall code quality score (1-10)\n\nFormat as a professional code review report with sections:\n- Summary\n- Critical Issues\n- Major Issues\n- Minor Issues\n- Recommendations and Next Steps",
   "Complete code review report with prioritized recommendations.",
   ["quality", "security", "performance", "documentation"]⟩

/-- The declared five-stage pipeline, in declaration order
(`tasks=[analyze_task, security_task, performance_task,
documentation_task, synthesis_task]`, `src/app.py` lines 554-560). -/
def fivePipeline : List StageDef :=
  [qualityStage, securityStage, performanceStage, documentationStage, synthesisStage]

/-- Two independent stages declared in the order beta, alpha — used to
exhibit the declaration-order tie-break of `order()`. -/
def twoIndependentStages : List StageDef :=
  [⟨"beta", ⟨"r", "g", "b"⟩, "t", "e", []⟩,
   ⟨"alpha", ⟨"r", "g", "b"⟩, "t", "e", []⟩]

/-- A piece of a stage's effective prompt: the instruction header or one
labeled dependency-output section. -/
inductive PromptPart
  | header (text : String)
  | depSection (stage : String) (text : String)
deriving DecidableEq

/-- Substitute the artifact reference into a prompt template. -/
def substArtifact (tmpl artifact : String) : String :=
  String.intercalate artifact (tmpl.splitOn "%ARTIFACT%")

/-- Whether a stage result is Succeeded. -/
def StageRes.isSucceeded : StageRes → Bool
  | StageRes.succeeded _ => true
  | _ => false

/-- The recorded output text of a stage result (empty unless Succeeded). -/
def StageRes.outputText : StageRes → String
  | StageRes.succeeded t => t
  | _ => ""

/-- Modelled from the spec: `build_prompt` of the Context Aggregator
(spec §4.2); in the source the wiring is the implicit `context=[...]`
mechanism inside the `crewai` library.  The prompt is the instruction
header (template with the artifact substituted) followed by one labeled
section per declared dependency, in declared order, holding that
dependency's recorded output text; fails with
`MissingDependencyOutputError` if some declared dependency has no
Succeeded result. -/
def build_prompt (stage : StageDef) (artifact : String) (rs : String → StageRes) :
    Except String (List PromptPart) :=
  if stage.dependencies.all (fun d => StageRes.isSucceeded (rs d)) then
    Except.ok (PromptPart.header (substArtifact stage.prompt_template artifact) ::
      stage.dependencies.map (fun d => PromptPart.depSection d (StageRes.outputText (rs d))))
  else Except.error "MissingDependencyOutputError"

/-- Flatten a structured prompt to the string handed to the generator. -/
def renderPrompt (parts : List PromptPart) : String :=
  String.intercalate "\n\n" (parts.map (fun part =>
    match part with
    | PromptPart.header t => t
    | PromptPart.depSection s t => "Context from " ++ s ++ ":\n" ++ t))

/-- Interface-rendering milestones of the module-level script. -/
inductive UIEvent
  | pageConfig
  | customCss
  | pageHeader
  | sidebar
  | tabs
  | footer
deriving DecidableEq

/-- The statements of the module-level script of `src/app.py`, abstracted:
the line-16 read of `st.session_state.api_key` into `os.environ`, the
rendering calls, `load_dotenv()`, and the session-state default block. -/
inductive Stmt
  | readApiKeyIntoEnv
  | render (e : UIEvent)
  | loadDotenv
  | initSessionDefaults

/-- State of the module-level script: the Streamlit session attribute
`api_key` (absent on a fresh session), the `GOOGLE_API_KEY` environment
variable, and what has been rendered so far. -/
structure ScriptState where
  session_api_key : Option String
  env_google_api_key : Option String
  rendered : List UIEvent
deriving DecidableEq

/-- The error Streamlit raises when a missing session-state attribute is
read. -/
def attrErrMsg : String :=
  "AttributeError: st.session_state has no attribute api_key"

/-- One statement of the module-level script.  Reading
`st.session_state.api_key` (line 16) raises if the attribute is absent;
the default block (lines 70-72) assigns `api_key` from the environment
only if it is absent. -/
def runStmt (s : ScriptState) : Stmt → Except String ScriptState
  | Stmt.readApiKeyIntoEnv =>
    match s.session_api_key with
    | none => Except.error attrErrMsg
    | some k => Except.ok { s with env_google_api_key := some k }
  | Stmt.render e => Except.ok { s with rendered := s.rendered ++ [e] }
  | Stmt.loadDotenv => Except.ok s
  | Stmt.initSessionDefaults =>
    match s.session_api_key with
    | none => Except.ok { s with session_api_key := some (s.env_google_api_key.getD "") }
    | some _ => Except.ok s

/-- Run the script statements in order; on an uncaught exception the
script stops, reporting the message and the state at the failure point. -/
def runScript : ScriptState → List Stmt → Except (String × ScriptState) ScriptState
  | s, [] => Except.ok s
  | s, stmt :: rest =>
    match runStmt s stmt with
    | Except.ok s2 => runScript s2 rest
    | Except.error e => Except.error (e, s)

/-- The module-level statement sequence of `src/app.py`, in program order:
line 16 (`os.environ["GOOGLE_API_KEY"] = st.session_state.api_key`),
line 20 (`st.set_page_config`), line 28 (custom CSS), line 67
(`load_dotenv()`), lines 70-78 (session-state defaults), line 81 (header),
line 91 (sidebar), line 174 (tabs), line 884 (footer). -/
def moduleScript : List Stmt :=
  [Stmt.readApiKeyIntoEnv,
   Stmt.render UIEvent.pageConfig,
   Stmt.render UIEvent.customCss,
   Stmt.loadDotenv,
   Stmt.initSessionDefaults,
   Stmt.render UIEvent.pageHeader,
   Stmt.render UIEvent.sidebar,
   Stmt.render UIEvent.tabs,
   Stmt.render UIEvent.footer]

theorem getD_map_pending (rest : List String) :
    ∀ i, (rest.map (fun r => (r, StageRes.pending))).getD i ("", StageRes.pending)
      = (rest.getD i "", StageRes.pending) := by
  induction rest with
  | nil => intro i; cases i <;> rfl
  | cons a l ih =>
    intro i
    cases i with
    | zero => rfl
    | succ i => exact ih i

theorem kickoff_fail (g : String → Except String String) :
    ∀ (l : List String) (j : Nat) (e : String), j < l.length →
      (∀ i, i < j → ∃ t, g (l.getD i "") = Except.ok t) →
      g (l.getD j "") = Except.error e →
      (kickoff g l).calls = l.take (j + 1) ∧
      (kickoff g l).final = Except.error e ∧
      (kickoff g l).results.getD j ("", StageRes.pending)
        = (l.getD j "", StageRes.failed e) ∧
      (∀ i, j < i → (kickoff g l).results.getD i ("", StageRes.pending)
        = (l.getD i "", StageRes.pending)) := by
  intro l
  induction l with
  | nil => intro j e hj; simp at hj
  | cons s rest ih =>
    intro j e hj hok hfail
    cases j with
    | zero =>
      have hs : g s = Except.error e := hfail
      refine ⟨by simp [kickoff, hs], by simp [kickoff, hs], by simp [kickoff, hs], ?_⟩
      intro i hi
      match i, hi with
      | Nat.succ i, _ =>
        simp only [kickoff, hs]
        exact getD_map_pending rest i
    | succ j =>
      obtain ⟨t, ht⟩ := hok 0 (Nat.succ_pos j)
      have hs : g s = Except.ok t := ht
      have hj' : j < rest.length := by simpa using hj
      have hok' : ∀ i, i < j → ∃ u, g (rest.getD i "") = Except.ok u :=
        fun i hi => hok (i + 1) (by omega)
      obtain ⟨hcalls, hfin, hres, hpend⟩ := ih j e hj' hok' hfail
      cases rest with
      | nil => simp at hj'
      | cons r rs =>
        refine ⟨?_, ?_, ?_, ?_⟩
        · simp only [kickoff, hs, List.take_succ_cons]
          exact congrArg (s :: ·) hcalls
        · simpa only [kickoff, hs] using hfin
        · simpa only [kickoff, hs] using hres
        · intro i hi
          match i, hi with
          | Nat.succ i, _ =>
            simp only [kickoff, hs]
            exact hpend i (by omega)

theorem kickoff_ok_final (g : String → Except String String) :
    ∀ (l : List String) (hne : l ≠ []), (∀ s ∈ l, ∃ t, g s = Except.ok t) →
      (kickoff g l).final = g (l.getLast hne) := by
  intro l
  induction l with
  | nil => intro hne; exact absurd rfl hne
  | cons s rest ih =>
    intro hne hok
    cases rest with
    | nil =>
      obtain ⟨t, ht⟩ := hok s (List.mem_singleton.mpr rfl)
      simp [kickoff, ht, List.getLast]
    | cons r rs =>
      obtain ⟨t, ht⟩ := hok s (List.mem_cons_self s _)
      have hok' : ∀ x ∈ r :: rs, ∃ u, g x = Except.ok u :=
        fun x hx => hok x (List.mem_cons_of_mem s hx)
      have := ih (List.cons_ne_nil r rs) hok'
      simp only [kickoff, ht]
      rw [List.getLast_cons (List.cons_ne_nil r rs)]
      exact this

theorem kickoff_calls_head (g : String → Except String String) (s : String)
    (rest : List String) :
    ∃ cs, (kickoff g (s :: rest)).calls = s :: cs := by
  cases hg : g s with
  | ok t => exact ⟨(kickoff g rest).calls, by simp [kickoff, hg]⟩
  | error e => exact ⟨[], by simp [kickoff, hg]⟩

theorem percentsOf_append (a b : List Event) :
    percentsOf (a ++ b) = percentsOf a ++ percentsOf b :=
  List.filterMap_append a b _

theorem percentsOf_genCalls (xs : List String) :
    percentsOf (xs.map Event.genCall) = [] := by
  induction xs with
  | nil => rfl
  | cons x l ih => simp [percentsOf, ih]

theorem filter_isGenCall_genCalls (xs : List String) :
    (xs.map Event.genCall).filter isGenCall = xs.map Event.genCall := by
  induction xs with
  | nil => rfl
  | cons x l ih => simp [isGenCall, ih]

theorem filter_isStageStatus_genCalls (xs : List String) :
    (xs.map Event.genCall).filter isStageStatus = [] := by
  induction xs with
  | nil => rfl
  | cons x l ih => simp [isStageStatus, ih]

theorem takeWhile_all_append (p : Event → Bool) :
    ∀ (xs ys : List Event), (∀ x ∈ xs, p x = true) →
      (xs ++ ys).takeWhile p = xs ++ ys.takeWhile p := by
  intro xs ys
  induction xs with
  | nil => intro _; rfl
  | cons a l ih =>
    intro h
    have ha : p a = true := h a (List.mem_cons_self a l)
    simp only [List.cons_append, List.takeWhile_cons, ha, if_true]
    exact congrArg (a :: ·) (ih fun x hx => h x (List.mem_cons_of_mem a hx))

theorem reachSet_mono_succ (p : List StageDef) (a : String) (k : Nat) :
    reachSet p a k ⊆ reachSet p a (k + 1) := by
  intro x hx
  exact Finset.mem_union_left _ hx

theorem reachSet_mono (p : List StageDef) (a : String) {k m : Nat} (h : k ≤ m) :
    reachSet p a k ⊆ reachSet p a m := by
  induction h with
  | refl => exact fun x hx => hx
  | step _ ih => exact fun x hx => reachSet_mono_succ p a _ (ih hx)

theorem depF_subset_allDeps (p : List StageDef) (a : String) :
    depF p a ⊆ allDeps p := by
  intro x hx
  simp only [depF, List.mem_toFinset] at hx
  simp only [allDeps, List.mem_toFinset, List.mem_flatten]
  unfold depsOf at hx
  cases hfind : p.find? (fun s => s.id == a) with
  | none => rw [hfind] at hx; simp at hx
  | some s =>
    rw [hfind] at hx
    exact ⟨s.dependencies,
      List.mem_map_of_mem _ (List.mem_of_find?_eq_some hfind), hx⟩

theorem reachSet_subset_allDeps (p : List StageDef) (a : String) :
    ∀ k, reachSet p a k ⊆ allDeps p := by
  intro k
  induction k with
  | zero => exact depF_subset_allDeps p a
  | succ k ih =>
    intro x hx
    simp only [reachSet, expandF, Finset.mem_union] at hx
    cases hx with
    | inl h => exact ih h
    | inr h =>
      obtain ⟨y, _, hxy⟩ := Finset.mem_biUnion.mp h
      exact depF_subset_allDeps p y hxy

theorem reachSet_stab (p : List StageDef) (a : String) (k : Nat)
    (h : reachSet p a (k + 1) = reachSet p a k) :
    ∀ j, reachSet p a (k + j) = reachSet p a k := by
  intro j
  induction j with
  | zero => rfl
  | succ j ih =>
    calc reachSet p a (k + (j + 1)) = expandF p (reachSet p a (k + j)) := rfl
      _ = expandF p (reachSet p a k) := by rw [ih]
      _ = reachSet p a (k + 1) := rfl
      _ = reachSet p a k := h

theorem exists_reachSet_stab (p : List StageDef) (a : String) :
    ∃ k, k ≤ (allDeps p).card ∧ reachSet p a (k + 1) = reachSet p a k := by
  by_contra hcon
  push_neg at hcon
  have hcard : ∀ k, k ≤ (allDeps p).card + 1 → k ≤ (reachSet p a k).card := by
    intro k
    induction k with
    | zero => intro _; exact Nat.zero_le _
    | succ k ih =>
      intro hk
      have hne := hcon k (by omega)
      have hsub : reachSet p a k ⊂ reachSet p a (k + 1) :=
        Finset.ssubset_iff_subset_ne.mpr
          ⟨reachSet_mono_succ p a k, fun h => hne h.symm⟩
      have h1 := Finset.card_lt_card hsub
      have h2 := ih (by omega)
      omega
  have h1 := hcard ((allDeps p).card + 1) (le_refl _)
  have h2 := Finset.card_le_card
    (reachSet_subset_allDeps p a ((allDeps p).card + 1))
  omega

theorem reachSet_fix (p : List StageDef) (a : String) :
    expandF p (reachSet p a (cycleFuel p)) = reachSet p a (cycleFuel p) := by
  obtain ⟨k, hk, hstab⟩ := exists_reachSet_stab p a
  have hk2 : k ≤ cycleFuel p := by unfold cycleFuel; omega
  have h1 : reachSet p a (cycleFuel p) = reachSet p a k := by
    have := reachSet_stab p a k hstab (cycleFuel p - k)
    rwa [show k + (cycleFuel p - k) = cycleFuel p by omega] at this
  have h2 : reachSet p a (cycleFuel p + 1) = reachSet p a k := by
    have := reachSet_stab p a k hstab (cycleFuel p + 1 - k)
    rwa [show k + (cycleFuel p + 1 - k) = cycleFuel p + 1 by omega] at this
  calc expandF p (reachSet p a (cycleFuel p))
      = reachSet p a (cycleFuel p + 1) := rfl
    _ = reachSet p a k := h2
    _ = reachSet p a (cycleFuel p) := h1.symm

theorem mem_reachSet_of_dep (p : List StageDef) (a b : String)
    (h : Dep1 p a b) : b ∈ reachSet p a (cycleFuel p) :=
  reachSet_mono p a (Nat.zero_le _)
    (by simpa [reachSet, depF, List.mem_toFinset] using h)

theorem mem_reachSet_step (p : List StageDef) (a x b : String)
    (hx : x ∈ reachSet p a (cycleFuel p)) (hb : Dep1 p x b) :
    b ∈ reachSet p a (cycleFuel p) := by
  have hmem : b ∈ expandF p (reachSet p a (cycleFuel p)) :=
    Finset.mem_union_right _
      (Finset.mem_biUnion.mpr ⟨x, hx, by simpa [depF, List.mem_toFinset] using hb⟩)
  rwa [reachSet_fix] at hmem

theorem transGen_mem_reachSet (p : List StageDef) (a b : String)
    (h : Relation.TransGen (Dep1 p) a b) : b ∈ reachSet p a (cycleFuel p) := by
  induction h with
  | single h1 => exact mem_reachSet_of_dep p a _ h1
  | tail _ h1 ih => exact mem_reachSet_step p a _ _ ih h1

theorem mem_reachSet_transGen (p : List StageDef) (a : String) :
    ∀ (k : Nat) (b : String), b ∈ reachSet p a k →
      Relation.TransGen (Dep1 p) a b := by
  intro k
  induction k with
  | zero =>
    intro b hb
    exact Relation.TransGen.single
      (by simpa [Dep1, reachSet, depF, List.mem_toFinset] using hb)
  | succ k ih =>
    intro b hb
    simp only [reachSet, expandF, Finset.mem_union] at hb
    cases hb with
    | inl h => exact ih b h
    | inr h =>
      obtain ⟨x, hx, hbx⟩ := Finset.mem_biUnion.mp h
      exact Relation.TransGen.tail (ih x hx)
        (by simpa [Dep1, depF, List.mem_toFinset] using hbx)

theorem hasCycleB_iff (p : List StageDef) :
    hasCycleB p = true ↔ ∃ s ∈ p, Relation.TransGen (Dep1 p) s.id s.id := by
  unfold hasCycleB
  rw [List.any_eq_true]
  constructor
  · rintro ⟨s, hs, hdec⟩
    exact ⟨s, hs, mem_reachSet_transGen p s.id _ s.id (of_decide_eq_true hdec)⟩
  · rintro ⟨s, hs, htg⟩
    exact ⟨s, hs, decide_eq_true (transGen_mem_reachSet p s.id s.id htg)⟩

theorem goodFrom_orderStagesAux (p : List StageDef) :
    ∀ (fuel : Nat) (done : List String), GoodFrom done (orderStagesAux p fuel done) := by
  intro fuel
  induction fuel with
  | zero => intro _; exact trivial
  | succ fuel ih =>
    intro done
    cases hpick : pickNext p done with
    | none =>
      simp only [orderStagesAux, hpick]
      exact trivial
    | some s =>
      simp only [orderStagesAux, hpick]
      refine ⟨?_, ih (done ++ [s.id])⟩
      have hpred := List.find?_some hpick
      have hall : s.dependencies.all (fun d => done.contains d) = true := by
        simp only [Bool.and_eq_true] at hpred
        exact hpred.2
      intro d hd
      have := List.all_eq_true.mp hall d hd
      simpa using this

theorem goodFrom_getD :
    ∀ (l : List StageDef) (done : List String), GoodFrom done l →
      ∀ (k : Nat) (hk : k < l.length),
        ∀ d ∈ (l.get ⟨k, hk⟩).dependencies,
          d ∈ done ++ (l.map StageDef.id).take k := by
  intro l
  induction l with
  | nil => intro done _ k hk; simp at hk
  | cons s rest ih =>
    intro done hg k hk d hd
    cases k with
    | zero => simpa using hg.1 d hd
    | succ k =>
      have := ih (done ++ [s.id]) hg.2 k (by simpa using hk) d hd
      simpa [List.append_assoc] using this

theorem filter_isGenCall_pre : preKickoffEvents.filter isGenCall = [] := rfl

theorem filter_isGenCall_errTail (m : String) :
    List.filter isGenCall [Event.errorShown m] = [] := rfl

theorem filter_isGenCall_okTail :
    List.filter isGenCall
      [Event.progress 100, Event.status "✅ Review complete!", Event.tempUnlink] = [] := rfl

theorem percentsOf_pre :
    percentsOf preKickoffEvents = [0, 10, 20, 30, 40, 55, 70, 85, 95] := rfl

theorem percentsOf_okTail :
    percentsOf [Event.progress 100, Event.status "✅ Review complete!", Event.tempUnlink]
      = [100] := rfl

theorem percentsOf_errTail (m : String) :
    percentsOf [Event.errorShown m] = [] := rfl

theorem takeWhile_notGenCall_events (csEv tail : List Event) :
    ((preKickoffEvents ++ (Event.genCall "quality" :: csEv) ++ tail).takeWhile
        (fun ev => !(isGenCall ev)))
      = preKickoffEvents := by
  rw [List.append_assoc]
  rw [takeWhile_all_append _ preKickoffEvents _ (by decide)]
  simp [List.takeWhile_cons, isGenCall]

/-- C1: if the external generator fails at stage k (1-indexed), no stage
k+1..n is invoked (the generator-call trace is exactly stages 1..k), the
failing stage's Stage Result is Failed and the later stages stay Pending,
the overall Run Status is Failed, the session state is unchanged — so no
Review Record is produced and the History's size after the run equals its
size before the run. -/
theorem c1_generator_failure_aborts_run (st : AppState)
    (fn code mo te ts : String) (g : String → Except String String)
    (k : Nat) (e : String) (hk1 : 1 ≤ k) (hk5 : k ≤ 5)
    (hok : ∀ i, i < k - 1 → ∃ t, g (appStageIds.getD i "") = Except.ok t)
    (hfail : g (appStageIds.getD (k - 1) "") = Except.error e) :
    (runReview st fn code mo te ts g).status = RunStatus.Failed ∧
    (runReview st fn code mo te ts g).state = st ∧
    (runReview st fn code mo te ts g).state.review_history.length
      = st.review_history.length ∧
    (runReview st fn code mo te ts g).events.filter isGenCall
      = (appStageIds.take k).map Event.genCall ∧
    (runReview st fn code mo te ts g).stageResults.getD (k - 1) ("", StageRes.pending)
      = (appStageIds.getD (k - 1) "", StageRes.failed e) ∧
    (∀ i, k - 1 < i →
      (runReview st fn code mo te ts g).stageResults.getD i ("", StageRes.pending)
        = (appStageIds.getD i "", StageRes.pending)) := by
  have hj : k - 1 < appStageIds.length := by
    simp only [appStageIds, List.length_cons, List.length_nil]
    omega
  obtain ⟨hcalls, hfin, hres, hpend⟩ :=
    kickoff_fail g appStageIds (k - 1) e hj hok hfail
  rw [show k - 1 + 1 = k by omega] at hcalls
  refine ⟨?_, ?_, ?_, ?_, ?_, ?_⟩
  · simp only [runReview, hfin]
  · simp only [runReview, hfin]
  · simp only [runReview, hfin]
  · simp only [runReview, hfin]
    rw [List.filter_append, List.filter_append, filter_isGenCall_pre,
      filter_isGenCall_genCalls, filter_isGenCall_errTail, hcalls]
    simp
  · simp only [runReview, hfin]
    exact hres
  · intro i hi
    simp only [runReview, hfin]
    exact hpend i hi

theorem c1_witness :
    (runReview ⟨some "key", none, []⟩ "f.py" "print(1)" "gemini-2.5-flash-lite" "0.3"
      "2026-10-12"
      (fun s => if s == "quality" then Except.error "GenerationError" else Except.ok "out")).status
      = RunStatus.Failed :=
  (c1_generator_failure_aborts_run ⟨some "key", none, []⟩ "f.py" "print(1)"
    "gemini-2.5-flash-lite" "0.3" "2026-10-12"
    (fun s => if s == "quality" then Except.error "GenerationError" else Except.ok "out")
    1 "GenerationError" (le_refl 1) (by omega)
    (fun i hi => absurd hi (Nat.not_lt_zero i)) rfl).1

/-- C2: if all stages succeed, exactly one Review Record is appended to the
History (its size grows by exactly 1), the new record's `content` equals
the synthesis stage's output text, and the Run Status is Completed. -/
theorem c2_success_appends_one_record (st : AppState)
    (fn code mo te ts : String) (g : String → Except String String)
    (h : ∀ s ∈ appStageIds, ∃ t, g s = Except.ok t) :
    ∃ content, g "synthesis" = Except.ok content ∧
      (runReview st fn code mo te ts g).state.review_history
        = st.review_history ++ [⟨content, fn, ts, code, mo, te⟩] ∧
      (runReview st fn code mo te ts g).state.review_history.length
        = st.review_history.length + 1 ∧
      (runReview st fn code mo te ts g).status = RunStatus.Completed ∧
      (runReview st fn code mo te ts g).state.review_result
        = some ⟨content, fn, ts, code, mo, te⟩ := by
  have hne : appStageIds ≠ [] := by simp [appStageIds]
  have hfin := kickoff_ok_final g appStageIds hne h
  have hlast : appStageIds.getLast hne = "synthesis" := rfl
  rw [hlast] at hfin
  obtain ⟨t, ht⟩ := h "synthesis" (by simp [appStageIds])
  rw [ht] at hfin
  refine ⟨t, ht, ?_, ?_, ?_, ?_⟩ <;> simp [runReview, hfin]

theorem c2_witness :
    (runReview ⟨some "key", none, []⟩ "f.py" "print(1)" "gemini-2.5-flash-lite" "0.3"
      "2026-10-12" (fun s => Except.ok ("out-" ++ s))).status = RunStatus.Completed := by
  obtain ⟨t, _, _, _, hstat, _⟩ := c2_success_appends_one_record ⟨some "key", none, []⟩
    "f.py" "print(1)" "gemini-2.5-flash-lite" "0.3" "2026-10-12"
    (fun s => Except.ok ("out-" ++ s)) (fun s _ => ⟨"out-" ++ s, rfl⟩)
  exact hstat

/-- C3: the percent values emitted to the progress bar during one run are
non-decreasing, the final emitted value is exactly 100 if and only if the
Run Status is Completed, and on a Failed run the last emitted value is
strictly less than 100 (and is retained — no further value is emitted). -/
theorem c3_progress_monotone_and_final (st : AppState)
    (fn code mo te ts : String) (g : String → Except String String) :
    List.Chain' (fun a b => a ≤ b)
      (percentsOf (runReview st fn code mo te ts g).events) ∧
    ((percentsOf (runReview st fn code mo te ts g).events).getLast? = some 100 ↔
      (runReview st fn code mo te ts g).status = RunStatus.Completed) ∧
    ((runReview st fn code mo te ts g).status = RunStatus.Failed →
      ∃ v, (percentsOf (runReview st fn code mo te ts g).events).getLast? = some v ∧
        v < 100) := by
  cases hfin : (kickoff g appStageIds).final with
  | ok t =>
    simp only [runReview, hfin]
    rw [percentsOf_append, percentsOf_append, percentsOf_genCalls,
      percentsOf_pre, percentsOf_okTail]
    refine ⟨?_, by decide, ?_⟩
    · show List.Chain' (fun a b => a ≤ b) [0, 10, 20, 30, 40, 55, 70, 85, 95, 100]
      simp [List.chain'_cons]
    · intro hcon
      exact absurd hcon (by decide)
  | error e =>
    simp only [runReview, hfin]
    rw [percentsOf_append, percentsOf_append, percentsOf_genCalls,
      percentsOf_pre, percentsOf_errTail]
    refine ⟨?_, ?_, ?_⟩
    · show List.Chain' (fun a b => a ≤ b) [0, 10, 20, 30, 40, 55, 70, 85, 95]
      simp [List.chain'_cons]
    · constructor <;> (intro hcon; exact absurd hcon (by decide))
    · intro _
      exact ⟨95, by decide, by decide⟩

theorem c3_witness :
    (percentsOf (runReview ⟨some "key", none, []⟩ "f.py" "print(1)"
      "gemini-2.5-flash-lite" "0.3" "2026-10-12"
      (fun s => Except.ok ("out-" ++ s))).events).getLast? = some 100 :=
  (c3_progress_monotone_and_final ⟨some "key", none, []⟩ "f.py" "print(1)"
    "gemini-2.5-flash-lite" "0.3" "2026-10-12"
    (fun s => Except.ok ("out-" ++ s))).2.1.mpr (by decide)

/-- C4 counterexample: in a run in which every generator call succeeds, the
per-stage status event of the second stage (security) is emitted (event
index 9) strictly before the first stage's generator call (event index 17;
no generator call occurs among the first 17 events) — so a stage's Running
event is emitted before that stage begins executing and before earlier
stages have finished, contradicting the claim. -/
theorem c4_counterexample :
    ((runReview ⟨some "key", none, []⟩ "f.py" "print(1)" "gemini-2.5-flash-lite" "0.3"
        "2026-10-12" (fun s => Except.ok ("out-" ++ s))).events.getD 9 Event.tempCreate
      = Event.status "🔒 Agent 2/5: Auditing security...") ∧
    (∀ i, i < 17 →
      isGenCall ((runReview ⟨some "key", none, []⟩ "f.py" "print(1)"
        "gemini-2.5-flash-lite" "0.3" "2026-10-12"
        (fun s => Except.ok ("out-" ++ s))).events.getD i Event.tempCreate) = false) ∧
    ((runReview ⟨some "key", none, []⟩ "f.py" "print(1)" "gemini-2.5-flash-lite" "0.3"
        "2026-10-12" (fun s => Except.ok ("out-" ++ s))).events.getD 17 Event.tempCreate
      = Event.genCall "quality") := by
  decide

/-- C4 (amended): the engine emits exactly one status event per stage, in
stage declaration order, but these events are all emitted before the
generator executes any stage (the five stages run inside one batched
generator invocation), so they are not synchronized with the actual
stage-state transitions. -/
theorem c4_stage_status_events (st : AppState) (fn code mo te ts : String)
    (g : String → Except String String) :
    (runReview st fn code mo te ts g).events.filter isStageStatus
      = stageStatusMsgs.map Event.status ∧
    ((runReview st fn code mo te ts g).events.takeWhile
        (fun ev => !(isGenCall ev))).filter isStageStatus
      = stageStatusMsgs.map Event.status := by
  obtain ⟨cs, hcs⟩ := kickoff_calls_head g "quality"
    ["security", "performance", "documentation", "synthesis"]
  have hcs' : (kickoff g appStageIds).calls = "quality" :: cs := hcs
  cases hfin : (kickoff g appStageIds).final with
  | ok t =>
    simp only [runReview, hfin]
    constructor
    · rw [List.filter_append, List.filter_append, filter_isStageStatus_genCalls]
      rfl
    · rw [hcs', List.map_cons, takeWhile_notGenCall_events]
      rfl
  | error e =>
    simp only [runReview, hfin]
    constructor
    · rw [List.filter_append, List.filter_append, filter_isStageStatus_genCalls]
      rfl
    · rw [hcs', List.map_cons, takeWhile_notGenCall_events]
      rfl

/-- C8: the claim requires the temporary artifact file to be released on
every exit path, but the source deletes it only on the success path
(`os.unlink` at line 606 is inside the `try` body, after the history
append): on a failed run the temp file is created and never unlinked,
while on a successful run it is unlinked. -/
theorem c8_temp_leak_on_failure :
    (Event.tempCreate ∈ (runReview ⟨some "key", none, []⟩ "f.py" "print(1)"
      "gemini-2.5-flash-lite" "0.3" "2026-10-12"
      (fun _ => Except.error "GenerationError: invalid API key")).events) ∧
    (Event.tempUnlink ∉ (runReview ⟨some "key", none, []⟩ "f.py" "print(1)"
      "gemini-2.5-flash-lite" "0.3" "2026-10-12"
      (fun _ => Except.error "GenerationError: invalid API key")).events) ∧
    ((runReview ⟨some "key", none, []⟩ "f.py" "print(1)"
      "gemini-2.5-flash-lite" "0.3" "2026-10-12"
      (fun _ => Except.error "GenerationError: invalid API key")).status
        = RunStatus.Failed) ∧
    (Event.tempUnlink ∈ (runReview ⟨some "key", none, []⟩ "f.py" "print(1)"
      "gemini-2.5-flash-lite" "0.3" "2026-10-12"
      (fun s => Except.ok ("out-" ++ s))).events) := by
  decide

/-- C9: the History is append-only: every run either leaves it unchanged or
appends exactly one record at the end; the previous contents are always a
prefix of the new contents (existing entries are never mutated, removed or
reordered); and `count()` returns the current number of records. -/
theorem c9_history_append_only (st : AppState) (fn code mo te ts : String)
    (g : String → Except String String) :
    ((runReview st fn code mo te ts g).state.review_history = st.review_history ∨
      ∃ rc, (runReview st fn code mo te ts g).state.review_history
        = st.review_history ++ [rc]) ∧
    (∃ tl, st.review_history ++ tl
      = (runReview st fn code mo te ts g).state.review_history) ∧
    countReviews (runReview st fn code mo te ts g).state
      = (runReview st fn code mo te ts g).state.review_history.length := by
  cases hfin : (kickoff g appStageIds).final with
  | ok t =>
    refine ⟨Or.inr ⟨⟨t, fn, ts, code, mo, te⟩, ?_⟩,
      ⟨[⟨t, fn, ts, code, mo, te⟩], ?_⟩, rfl⟩ <;> simp [runReview, hfin]
  | error e =>
    refine ⟨Or.inl ?_, ⟨[], ?_⟩, rfl⟩ <;> simp [runReview, hfin]

/-- C5: for every pipeline containing a stage whose dependency set
transitively includes itself, `validate()` fails with `CycleError`, and the
engine rejects the pipeline before any generator call is made; and for
every (cycle-free) pipeline containing a dependency id that is not a
defined stage, `validate()` fails with `UnknownDependencyError`. -/
theorem c5_validate_rejects_bad_pipelines :
    (∀ (p : List StageDef) (g : String → Except String String) (s : StageDef),
        s ∈ p → Relation.TransGen (Dep1 p) s.id s.id →
        validate p = Except.error PipelineError.CycleError ∧
        engineRun p g = Except.error PipelineError.CycleError) ∧
    (∀ p : List StageDef,
        (¬ ∃ s ∈ p, Relation.TransGen (Dep1 p) s.id s.id) →
        (∃ s ∈ p, ∃ d ∈ s.dependencies, ∀ t ∈ p, t.id ≠ d) →
        validate p = Except.error PipelineError.UnknownDependencyError) := by
  constructor
  · intro p g s hs htg
    have hc : hasCycleB p = true := (hasCycleB_iff p).mpr ⟨s, hs, htg⟩
    have hv : validate p = Except.error PipelineError.CycleError := by
      simp [validate, hc]
    exact ⟨hv, by simp [engineRun, hv]⟩
  · intro p hnc hunk
    have hc : hasCycleB p = false := by
      cases hcy : hasCycleB p with
      | false => rfl
      | true => exact absurd ((hasCycleB_iff p).mp hcy) hnc
    have hu : hasUnknownDepB p = true := by
      obtain ⟨s, hs, d, hd, hnd⟩ := hunk
      refine List.any_eq_true.mpr ⟨s, hs, List.any_eq_true.mpr ⟨d, hd, ?_⟩⟩
      simp only [Bool.not_eq_true']
      rw [List.any_eq_false]
      intro t ht
      simpa using hnd t ht
    simp [validate, hc, hu]

theorem c5_witness :
    validate [⟨"a", ⟨"r", "g", "b"⟩, "t", "e", ["a"]⟩]
      = Except.error PipelineError.CycleError ∧
    validate [⟨"a", ⟨"r", "g", "b"⟩, "t", "e", ["ghost"]⟩]
      = Except.error PipelineError.UnknownDependencyError := by
  constructor
  · exact (c5_validate_rejects_bad_pipelines.1
      [⟨"a", ⟨"r", "g", "b"⟩, "t", "e", ["a"]⟩] (fun _ => Except.ok "")
      ⟨"a", ⟨"r", "g", "b"⟩, "t", "e", ["a"]⟩ (List.mem_singleton.mpr rfl)
      (Relation.TransGen.single (by simp [Dep1, depsOf]))).1
  · refine c5_validate_rejects_bad_pipelines.2
      [⟨"a", ⟨"r", "g", "b"⟩, "t", "e", ["ghost"]⟩] ?_
      ⟨⟨"a", ⟨"r", "g", "b"⟩, "t", "e", ["ghost"]⟩, List.mem_singleton.mpr rfl,
        "ghost", by simp, by decide⟩
    intro hcon
    obtain ⟨s, hs, htg⟩ := hcon
    have hcy := (hasCycleB_iff [⟨"a", ⟨"r", "g", "b"⟩, "t", "e", ["ghost"]⟩]).mpr
      ⟨s, hs, htg⟩
    revert hcy
    decide

theorem stall_step (p : List StageDef) (done : List String)
    (hpick : pickNext p done = none) (hnu : hasUnknownDepB p = false) :
    ∀ i ∈ remainingIds p done, ∃ d, Dep1 p i d ∧ d ∈ remainingIds p done := by
  intro i hi
  simp only [remainingIds, Finset.mem_filter, List.mem_toFinset] at hi
  obtain ⟨hiIds, hiDone⟩ := hi
  obtain ⟨s0, hs0, hs0id⟩ := List.mem_map.mp hiIds
  have hex : (p.find? (fun t => t.id == i)).isSome := by
    rw [List.find?_isSome]
    exact ⟨s0, hs0, by simp [hs0id]⟩
  obtain ⟨y, hy⟩ := Option.isSome_iff_exists.mp hex
  have hyp := List.find?_some hy
  have hymem : y ∈ p := List.mem_of_find?_eq_some hy
  have hyid : y.id = i := by simpa using hyp
  have hdeps : depsOf p i = y.dependencies := by
    unfold depsOf
    rw [hy]
  have hnone := List.find?_eq_none.mp hpick y hymem
  have hcont : done.contains y.id = false := by
    rw [hyid]
    simpa using hiDone
  have hall : y.dependencies.all (fun d => done.contains d) = false := by
    cases hallc : y.dependencies.all (fun d => done.contains d) with
    | false => rfl
    | true => exact absurd (by rw [hcont, hallc]; rfl) hnone
  obtain ⟨d, hd, hdc⟩ : ∃ d ∈ y.dependencies, done.contains d = false := by
    by_contra hcon
    push_neg at hcon
    have : y.dependencies.all (fun d => done.contains d) = true :=
      List.all_eq_true.mpr (fun d hdm => by
        cases h : done.contains d with
        | true => rfl
        | false => exact absurd h (hcon d hdm))
    rw [this] at hall
    cases hall
  have hyunk : (y.dependencies.any (fun d2 => !(p.any (fun t => t.id == d2)))) = false := by
    cases hc : y.dependencies.any (fun d2 => !(p.any (fun t => t.id == d2))) with
    | false => rfl
    | true =>
      have hbad : hasUnknownDepB p = true := List.any_eq_true.mpr ⟨y, hymem, hc⟩
      rw [hbad] at hnu
      cases hnu
  have hdany : (p.any (fun t => t.id == d)) = true := by
    cases hc : p.any (fun t => t.id == d) with
    | true => rfl
    | false =>
      have hbad : y.dependencies.any (fun d2 => !(p.any (fun t => t.id == d2))) = true :=
        List.any_eq_true.mpr ⟨d, hd, by rw [hc]; rfl⟩
      rw [hbad] at hyunk
      cases hyunk
  have hdIds : d ∈ p.map StageDef.id := by
    obtain ⟨t, ht, htid⟩ := List.any_eq_true.mp hdany
    exact List.mem_map.mpr ⟨t, ht, by simpa using htid⟩
  refine ⟨d, ?_, ?_⟩
  · unfold Dep1
    rw [hdeps]
    exact hd
  · simp only [remainingIds, Finset.mem_filter, List.mem_toFinset]
    refine ⟨hdIds, ?_⟩
    intro hmem
    rw [(by simpa using hmem : done.contains d = true)] at hdc
    cases hdc

theorem stall_cycle (p : List StageDef) (done : List String)
    (hpick : pickNext p done = none) (hnu : hasUnknownDepB p = false)
    (i0 : String) (hi0 : i0 ∈ remainingIds p done) :
    ∃ s ∈ p, Relation.TransGen (Dep1 p) s.id s.id := by
  classical
  have hstep' : ∀ i : String,
      ∃ d, i ∈ remainingIds p done → Dep1 p i d ∧ d ∈ remainingIds p done := by
    intro i
    by_cases hi : i ∈ remainingIds p done
    · obtain ⟨d, h1, h2⟩ := stall_step p done hpick hnu i hi
      exact ⟨d, fun _ => ⟨h1, h2⟩⟩
    · exact ⟨i, fun h => absurd h hi⟩
  choose nxt hnxt using hstep'
  have hmem : ∀ (x : String), x ∈ remainingIds p done →
      ∀ n, nxt^[n] x ∈ remainingIds p done := by
    intro x hx n
    induction n with
    | zero => exact hx
    | succ n ih =>
      rw [Function.iterate_succ_apply']
      exact (hnxt _ ih).2
  have hchain : ∀ (x : String), x ∈ remainingIds p done →
      ∀ n, Relation.TransGen (Dep1 p) x (nxt^[n + 1] x) := by
    intro x hx n
    induction n with
    | zero => exact Relation.TransGen.single (hnxt x hx).1
    | succ n ih =>
      rw [Function.iterate_succ_apply']
      exact Relation.TransGen.tail ih (hnxt _ (hmem x hx (n + 1))).1
  obtain ⟨a, _, b, _, hab, heq⟩ :=
    Finset.exists_ne_map_eq_of_card_lt_of_maps_to
      (show (remainingIds p done).card
          < (Finset.range ((remainingIds p done).card + 1)).card by simp)
      (fun k _ => hmem i0 hi0 k)
  have hmn : ∃ m n, m < n ∧ nxt^[m] i0 = nxt^[n] i0 := by
    rcases lt_or_gt_of_ne hab with h | h
    · exact ⟨a, b, h, heq⟩
    · exact ⟨b, a, h, heq.symm⟩
  obtain ⟨m, n, hmn', heq'⟩ := hmn
  have hxR : nxt^[m] i0 ∈ remainingIds p done := hmem i0 hi0 m
  have hcyc : Relation.TransGen (Dep1 p) (nxt^[m] i0) (nxt^[m] i0) := by
    have h1 := hchain (nxt^[m] i0) hxR (n - m - 1)
    have h2 : nxt^[n - m - 1 + 1] (nxt^[m] i0) = nxt^[m] i0 := by
      rw [← Function.iterate_add_apply]
      rw [show n - m - 1 + 1 + m = n by omega]
      exact heq'.symm
    rwa [h2] at h1
  have hxIds : nxt^[m] i0 ∈ p.map StageDef.id := by
    have hx := hxR
    simp only [remainingIds, Finset.mem_filter, List.mem_toFinset] at hx
    exact hx.1
  obtain ⟨s, hs, hsid⟩ := List.mem_map.mp hxIds
  exact ⟨s, hs, by rwa [hsid]⟩

theorem orderStagesAux_complete (p : List StageDef)
    (hnu : hasUnknownDepB p = false) (hnc : hasCycleB p = false) :
    ∀ (fuel : Nat) (done : List String),
      (remainingIds p done).card ≤ fuel →
      ∀ s ∈ p, s.id ∈ done ∨ s.id ∈ (orderStagesAux p fuel done).map StageDef.id := by
  intro fuel
  induction fuel with
  | zero =>
    intro done hcard s hs
    left
    by_contra hnd
    have hin : s.id ∈ remainingIds p done := by
      simp only [remainingIds, Finset.mem_filter, List.mem_toFinset]
      exact ⟨List.mem_map_of_mem _ hs, hnd⟩
    have := Finset.card_pos.mpr ⟨s.id, hin⟩
    omega
  | succ fuel ih =>
    intro done hcard s hs
    cases hpick : pickNext p done with
    | none =>
      by_cases hdone : s.id ∈ done
      · exact Or.inl hdone
      · exfalso
        have hi0 : s.id ∈ remainingIds p done := by
          simp only [remainingIds, Finset.mem_filter, List.mem_toFinset]
          exact ⟨List.mem_map_of_mem _ hs, hdone⟩
        obtain ⟨s', hs', hcyc⟩ := stall_cycle p done hpick hnu s.id hi0
        exact absurd ((hasCycleB_iff p).mpr ⟨s', hs', hcyc⟩) (by simp [hnc])
    | some t =>
      have hpred := List.find?_some hpick
      have htmem := List.mem_of_find?_eq_some hpick
      have htnd : done.contains t.id = false := by
        simp only [Bool.and_eq_true, Bool.not_eq_true'] at hpred
        exact hpred.1
      have hrem : remainingIds p (done ++ [t.id]) = (remainingIds p done).erase t.id := by
        ext i
        simp only [remainingIds, Finset.mem_filter, List.mem_toFinset,
          Finset.mem_erase, List.mem_append, List.mem_singleton]
        constructor
        · rintro ⟨h1, h2⟩
          exact ⟨fun he => h2 (Or.inr he), h1, fun hm => h2 (Or.inl hm)⟩
        · rintro ⟨hne, h1, h2⟩
          exact ⟨h1, fun hc => hc.elim h2 hne⟩
      have htin : t.id ∈ remainingIds p done := by
        simp only [remainingIds, Finset.mem_filter, List.mem_toFinset]
        refine ⟨List.mem_map_of_mem _ htmem, ?_⟩
        intro hmem
        rw [(by simpa using hmem : done.contains t.id = true)] at htnd
        cases htnd
      have hcard' : (remainingIds p (done ++ [t.id])).card ≤ fuel := by
        rw [hrem, Finset.card_erase_of_mem htin]
        have := Finset.card_pos.mpr ⟨t.id, htin⟩
        omega
      rcases ih (done ++ [t.id]) hcard' s hs with hin | hin
      · rcases List.mem_append.mp hin with h | h
        · exact Or.inl h
        · right
          simp only [orderStagesAux, hpick, List.map_cons]
          exact List.mem_cons.mpr (Or.inl (by simpa using h))
      · right
        simp only [orderStagesAux, hpick, List.map_cons]
        exact List.mem_cons.mpr (Or.inr hin)

/-- C6: for the declared five-stage pipeline, `order()` returns
quality → security → performance → documentation → synthesis; for every
pipeline definition, every stage's declared dependencies appear among the
earlier entries of the returned order (dependencies precede dependents);
ties are broken by declaration order (two independent stages come out in
declaration order); `order()` is deterministic — the same pipeline always
yields the identical sequence; and on every pipeline accepted by
`validate()` the returned order contains every declared stage. -/
theorem c6_order_correct :
    order fivePipeline
      = ["quality", "security", "performance", "documentation", "synthesis"] ∧
    (∀ (p : List StageDef) (k : Nat) (hk : k < (orderStages p).length),
        ∀ d ∈ ((orderStages p).get ⟨k, hk⟩).dependencies, d ∈ (order p).take k) ∧
    order twoIndependentStages = ["beta", "alpha"] ∧
    (∀ p : List StageDef, order p = order p) ∧
    (∀ p : List StageDef, validate p = Except.ok () → ∀ s ∈ p, s.id ∈ order p) := by
  refine ⟨by decide, ?_, by decide, fun _ => rfl, ?_⟩
  · intro p k hk d hd
    have := goodFrom_getD (orderStages p) []
      (goodFrom_orderStagesAux p p.length []) k hk d hd
    simpa [order] using this
  · intro p hv s hs
    have hnc : hasCycleB p = false := by
      cases h : hasCycleB p with
      | false => rfl
      | true => simp [validate, h] at hv
    have hnu : hasUnknownDepB p = false := by
      cases h : hasUnknownDepB p with
      | false => rfl
      | true => simp [validate, hnc, h] at hv
    have hcard : (remainingIds p []).card ≤ p.length := by
      calc (remainingIds p []).card
          ≤ (p.map StageDef.id).toFinset.card :=
            Finset.card_le_card (Finset.filter_subset _ _)
        _ ≤ (p.map StageDef.id).length := List.toFinset_card_le _
        _ = p.length := List.length_map p _
    rcases orderStagesAux_complete p hnu hnc p.length [] hcard s hs with h | h
    · simp at h
    · exact h

theorem c6_witness :
    "quality" ∈ (order fivePipeline).take 4 :=
  c6_order_correct.2.1 fivePipeline 4 (of_decide_eq_true rfl) "quality"
    (of_decide_eq_true rfl)

/-- C7: for every stage whose declared dependencies all have Succeeded
results, the prompt built by the Context Aggregator consists of the
instruction header followed by, in the dependencies' declared order,
exactly one labeled section per dependency holding that dependency's
recorded output text — and every part of the prompt is either the header
or one of those dependency sections (nothing from stages outside
D ∪ «self»). -/
theorem c7_build_prompt_exact (stage : StageDef) (artifact : String)
    (rs : String → StageRes)
    (h : ∀ d ∈ stage.dependencies, StageRes.isSucceeded (rs d) = true) :
    build_prompt stage artifact rs =
      Except.ok (PromptPart.header (substArtifact stage.prompt_template artifact) ::
        stage.dependencies.map
          (fun d => PromptPart.depSection d (StageRes.outputText (rs d)))) ∧
    (∀ parts, build_prompt stage artifact rs = Except.ok parts →
      ∀ part ∈ parts,
        part = PromptPart.header (substArtifact stage.prompt_template artifact) ∨
        ∃ d ∈ stage.dependencies,
          part = PromptPart.depSection d (StageRes.outputText (rs d))) := by
  have hall : stage.dependencies.all (fun d => StageRes.isSucceeded (rs d)) = true :=
    List.all_eq_true.mpr h
  have heq : build_prompt stage artifact rs =
      Except.ok (PromptPart.header (substArtifact stage.prompt_template artifact) ::
        stage.dependencies.map
          (fun d => PromptPart.depSection d (StageRes.outputText (rs d)))) := by
    simp [build_prompt, hall]
  refine ⟨heq, ?_⟩
  intro parts hp part hpart
  rw [heq] at hp
  cases hp
  rcases List.mem_cons.mp hpart with hhd | hmem
  · exact Or.inl hhd
  · obtain ⟨d, hd, hdeq⟩ := List.mem_map.mp hmem
    exact Or.inr ⟨d, hd, hdeq.symm⟩

theorem c7_witness :
    build_prompt synthesisStage "a.py" (fun d => StageRes.succeeded ("out-" ++ d)) =
      Except.ok (PromptPart.header (substArtifact synthesisStage.prompt_template "a.py") ::
        synthesisStage.dependencies.map
          (fun d => PromptPart.depSection d ("out-" ++ d))) := by
  have h := (c7_build_prompt_exact synthesisStage "a.py"
    (fun d => StageRes.succeeded ("out-" ++ d)) (fun d _ => rfl)).1
  simpa [StageRes.outputText] using h

/-- C10: on a fresh session in which the `api_key` attribute has never been
stored in session state, the module-level statement at `src/app.py` line 16
reads `st.session_state.api_key` before the session-state default block
(lines 70-72) has assigned it, so the script raises at startup, before any
interface is rendered. -/
theorem c10_fresh_session_crashes (s0 : ScriptState)
    (hfresh : s0.session_api_key = none) (hr : s0.rendered = []) :
    ∃ sfail, runScript s0 moduleScript = Except.error (attrErrMsg, sfail) ∧
      sfail.rendered = [] := by
  refine ⟨s0, ?_, hr⟩
  simp [moduleScript, runScript, runStmt, hfresh]

theorem c10_witness :
    ∃ sfail, runScript ⟨none, some "ENV-KEY", []⟩ moduleScript
      = Except.error (attrErrMsg, sfail) ∧ sfail.rendered = [] :=
  c10_fresh_session_crashes ⟨none, some "ENV-KEY", []⟩ rfl rfl

end CodeReview
